import Mathlib

/-!
Shallow embedding of src/movies.py: the entities (Movie, User), Storage,
GenreRecommender, UserSimilarityRecommender and the stats computation,
together with theorems settling the specification's claims.

Python dicts are modelled as insertion-ordered association lists
(List (String × _)); a dict update keeps the key's position, a fresh key
appends at the end, matching CPython dict semantics.  Python integers are
Int, `None`-able fields are Option.
-/

namespace MoviesPy

/-- Movie entity (movies.py lines 7-11): title, optional rating, optional genre. -/
structure Movie where
  title : String
  rating : Option Int := none
  genre : Option String := none
deriving DecidableEq

/-- Serialized form of a Movie (movies.py line 13-14): rating and genre only;
the title is the enclosing map key. -/
structure MovieData where
  rating : Option Int
  genre : Option String
deriving DecidableEq

/-- Movie.to_dict (lines 13-14). -/
def Movie.to_dict (m : Movie) : MovieData := ⟨m.rating, m.genre⟩

/-- Movie.from_dict (lines 16-18): rebuilt from the map key plus the record. -/
def Movie.from_dict (title : String) (d : MovieData) : Movie := ⟨title, d.rating, d.genre⟩

/-- User entity (lines 21-25): username, title-to-Movie dict, preference list. -/
structure User where
  username : String
  movies : List (String × Movie) := []
  preferences : List String := []
deriving DecidableEq

/-- Python membership test `title in movies` on a movie dict. -/
def containsTitle (movies : List (String × Movie)) (t : String) : Bool :=
  movies.any (fun p => p.1 == t)

/-- Python subscript `movies[title]` on a movie dict: the value stored at the
key, none when the key is absent. -/
def lookupMovie : List (String × Movie) → String → Option Movie
  | [], _ => none
  | p :: rest, t => if p.1 == t then some p.2 else lookupMovie rest t

/-- User.add_movie (lines 27-29): insert a fresh Movie(title) only when the
title is not yet a key. -/
def User.add_movie (u : User) (title : String) : User :=
  if containsTitle u.movies title then u
  else { u with movies := u.movies ++ [(title, { title := title })] }

/-- User.rate_movie (lines 31-33): when the title is a key, overwrite that
movie's rating with the given value; otherwise do nothing.  The source
performs no range check here. -/
def User.rate_movie (u : User) (title : String) (rating : Int) : User :=
  if containsTitle u.movies title then
    { u with movies := u.movies.map (fun p =>
        if p.1 == title then (p.1, { p.2 with rating := some rating }) else p) }
  else u

/-- User.get_rated_movies (lines 42-43): the movies whose rating is not None,
in dict insertion order. -/
def User.get_rated_movies (u : User) : List Movie :=
  (u.movies.map Prod.snd).filter (fun m => m.rating.isSome)

/-- Serialized form of a User (lines 45-49). -/
structure UserData where
  movies : List (String × MovieData)
  preferences : List String
deriving DecidableEq

/-- User.to_dict (lines 45-49). -/
def User.to_dict (u : User) : UserData :=
  ⟨u.movies.map (fun p => (p.1, p.2.to_dict)), u.preferences⟩

/-- User.from_dict (lines 51-56): rebuild each movie from its key. -/
def User.from_dict (username : String) (d : UserData) : User :=
  ⟨username, d.movies.map (fun p => (p.1, Movie.from_dict p.1 p.2)), d.preferences⟩

/-- The in-memory population: a username-keyed dict of Users. -/
abbrev Population := List (String × User)

/-- The persisted structure: the JSON object written by Storage.save, a
username-keyed object of user records. -/
abbrev StoredData := List (String × UserData)

/-- Storage.save (lines 60-64): serialize the population, keyed by each
user's username field (the source iterates users.values()). -/
def Storage.save (users : Population) : StoredData :=
  users.map (fun p => (p.2.username, p.2.to_dict))

/-- Storage.load (lines 66-74).  The argument models the state of the target
file: none is a missing file (FileNotFoundError, caught and turned into the
empty dict), some d is a file holding the structured data d. -/
def Storage.load (file : Option StoredData) : Population :=
  match file with
  | none => []
  | some data => data.map (fun p => (p.1, User.from_dict p.1 p.2))

/-- Python truthiness of an optional integer rating: None and 0 are falsy. -/
def truthy (r : Option Int) : Bool :=
  match r with
  | none => false
  | some v => v != 0

/-- Python `m.genre in prefs`: list membership by equality; a None genre is
never equal to a string. -/
def genreIn (g : Option String) (prefs : List String) : Bool :=
  match g with
  | some s => prefs.contains s
  | none => false

/-- Sort key used by both recommenders (`key=lambda m: m.rating`).  At every
call site of the sort in the source the list being sorted contains only
movies with integer ratings (a None there raises TypeError, modelled
separately), so the default value is never consulted. -/
def ratingKey (m : Movie) : Int := m.rating.getD 0

/-- One step of a stable descending insertion sort on the rating key: the
incoming element goes before the first element whose key is not larger,
so equal-key elements keep their original relative order.  This models
Python's stable list.sort(key=..., reverse=True). -/
def insertByRatingDesc (m : Movie) : List Movie → List Movie
  | [] => [m]
  | x :: xs => if ratingKey x ≤ ratingKey m then m :: x :: xs else x :: insertByRatingDesc m xs

/-- Stable descending sort by rating, modelling list.sort(key=lambda m:
m.rating, reverse=True) / sorted(..., reverse=True) from the source. -/
def sortByRatingDesc : List Movie → List Movie
  | [] => []
  | m :: rest => insertByRatingDesc m (sortByRatingDesc rest)

/-- GenreRecommender.recommend (lines 83-88): keep the user's own movies with
a truthy rating whose genre is in the preference list, sorted descending by
rating.  The population argument is never read by the source. -/
def GenreRecommender.recommend (user : User) (users : List User) : List Movie :=
  sortByRatingDesc ((user.movies.map Prod.snd).filter
    (fun m => truthy m.rating && genreIn m.genre user.preferences))

/-- Similarity count condition for one title (lines 100-106): the title is
rated non-None by both users and the ratings differ by at most 2.  A failed
dict lookup and a None rating both collapse to false, exactly as the
short-circuit conjunction in the source. -/
def simCond (user other : User) (t : String) : Bool :=
  match (lookupMovie user.movies t).bind Movie.rating,
        (lookupMovie other.movies t).bind Movie.rating with
  | some ur, some orr => decide ((ur - orr).natAbs ≤ 2)
  | _, _ => false

/-- Similarity score (lines 100-106): count over the keys of user.movies. -/
def simScore (user other : User) : Nat :=
  (user.movies.map Prod.fst).countP (fun t => simCond user other t)

/-- The best-match loop of UserSimilarityRecommender.recommend (lines
93-110): scan the population, skip users with the input user's username, and
replace the current best whenever the score strictly exceeds the best score,
which starts at -1. -/
def bmLoop (user : User) : List User → Option User → Int → Option User
  | [], best, _ => best
  | other :: rest, best, bestScore =>
    if other.username == user.username then bmLoop user rest best bestScore
    else if bestScore < (simScore user other : Int) then
      bmLoop user rest (some other) (simScore user other)
    else bmLoop user rest best bestScore

/-- The best match selected by the loop, starting from best_match = None and
best_score = -1 (lines 93-94). -/
def bestMatchUser (user : User) (users : List User) : Option User :=
  bmLoop user users none (-1)

/-- The candidate filter of line 117, with Python's operator precedence:
`t not in user.movies or (user.movies[t].rating is None and m.rating)`.
The second disjunct is only reached when the title is a key of user.movies,
so the lookup there always succeeds. -/
def candCond (user : User) (t : String) (m : Movie) : Bool :=
  !containsTitle user.movies t ||
    (((lookupMovie user.movies t).bind Movie.rating).isNone && truthy m.rating)

/-- The candidate list built on lines 115-117: the best match's movies that
pass the filter, in the best match's dict order. -/
def UserSimilarityRecommender.candidates (user best : User) : List Movie :=
  (best.movies.filter (fun p => candCond user p.1 p.2)).map Prod.snd

/-- UserSimilarityRecommender.recommend (lines 92-119).  The result is none
when the source raises: sorting the candidate list raises TypeError as soon
as it has at least two elements and one of them has a None rating, because
CPython compares every element of a list of length at least 2 at least once
and None supports no order comparison against None or int.  Otherwise the
result is the sorted candidate list truncated to 5 entries; an absent best
match returns the empty list (lines 112-113). -/
def UserSimilarityRecommender.recommend (user : User) (users : List User) :
    Option (List Movie) :=
  match bestMatchUser user users with
  | none => some []
  | some best =>
    if decide (2 ≤ (UserSimilarityRecommender.candidates user best).length)
        && (UserSimilarityRecommender.candidates user best).any (fun m => m.rating.isNone) then
      none
    else some ((sortByRatingDesc (UserSimilarityRecommender.candidates user best)).take 5)

/-- The average-rating computation of MovieApp.show_stats (lines 203-209):
None when the user has no rated movies, otherwise the exact arithmetic mean
of the rated movies' ratings (statistics.mean).  Every movie in the rated
list has a some rating, so ratingKey reads off exactly those ratings. -/
def averageRating (u : User) : Option Rat :=
  let rated := u.get_rated_movies
  if rated.isEmpty then none
  else some ((((rated.map ratingKey).sum : Int) : Rat) / (rated.length : Rat))

/-- One iteration of the rating loop in MovieApp.rate_movies (lines 185-192)
for a single title, after integer parsing succeeded: the rating is applied
only when 1 ≤ r ≤ 10, otherwise the user is left untouched. -/
def MovieApp.rate_step (u : User) (t : String) (r : Int) : User :=
  if 1 ≤ r ∧ r ≤ 10 then u.rate_movie t r else u

/-- The data-model invariant on a single movie: the rating, when present, is
in [1, 10]. -/
def ratingOk (m : Movie) : Bool :=
  match m.rating with
  | none => true
  | some r => decide (1 ≤ r ∧ r ≤ 10)

/-! ### Helper lemmas about dict membership and lookup -/

theorem containsTitle_eq_isSome (l : List (String × Movie)) (t : String) :
    containsTitle l t = (lookupMovie l t).isSome := by
  induction l with
  | nil => rfl
  | cons p l ih =>
    cases h : (p.1 == t) with
    | true => simp [containsTitle, lookupMovie, h]
    | false => simpa [containsTitle, lookupMovie, h] using ih

theorem lookupMovie_map_update (l : List (String × Movie)) (t : String)
    (g : Movie → Movie) :
    lookupMovie (l.map (fun p => if p.1 == t then (p.1, g p.2) else p)) t
      = (lookupMovie l t).map g := by
  induction l with
  | nil => rfl
  | cons p l ih =>
    cases h : (p.1 == t) with
    | true => simp [lookupMovie, h]
    | false => simpa [lookupMovie, h] using ih

/-! ### Claim C8 -/

/-- C8: Storage.load on a target where no prior data exists (a missing file,
whose FileNotFoundError the source catches) returns the empty population and
signals no error. -/
theorem load_missing_target_returns_empty : Storage.load none = ([] : Population) := rfl

/-! ### Claim C10 -/

/-- C10: GenreRecommender.recommend reads only the input user; its output is
identical for any two population arguments. -/
theorem genre_recommend_population_independent (u : User) (p1 p2 : List User) :
    GenreRecommender.recommend u p1 = GenreRecommender.recommend u p2 := rfl

/-! ### Claim C9 -/

/-- C9: User.add_movie is idempotent: when the title is already a key of the
movie dict the call returns the user unchanged (rating and genre of the
existing entry untouched), and adding the same title twice equals adding it
once. -/
theorem add_movie_idempotent (u : User) (t : String) :
    (containsTitle u.movies t = true → u.add_movie t = u) ∧
    (u.add_movie t).add_movie t = u.add_movie t := by
  constructor
  · intro h
    simp [User.add_movie, h]
  · by_cases h : containsTitle u.movies t = true
    · simp [User.add_movie, h]
    · have h' : containsTitle u.movies t = false := by
        cases hc : containsTitle u.movies t
        · rfl
        · exact absurd hc h
      have hstep : u.add_movie t = { u with movies := u.movies ++ [(t, ({ title := t } : Movie))] } := by
        simp [User.add_movie, h']
      have h2 : containsTitle (u.movies ++ [(t, ({ title := t } : Movie))]) t = true := by
        simp [containsTitle, List.any_append]
      rw [hstep]
      simp [User.add_movie, h2]

/-- C9 witness: adding an already-present title is a no-op on a concrete user. -/
theorem add_movie_idempotent_witness :
    containsTitle (⟨"alice", [("Dune", ⟨"Dune", some 5, none⟩)], []⟩ : User).movies "Dune" = true ∧
    User.add_movie ⟨"alice", [("Dune", ⟨"Dune", some 5, none⟩)], []⟩ "Dune"
      = ⟨"alice", [("Dune", ⟨"Dune", some 5, none⟩)], []⟩ :=
  ⟨by decide,
   (add_movie_idempotent ⟨"alice", [("Dune", ⟨"Dune", some 5, none⟩)], []⟩ "Dune").1 (by decide)⟩

/-! ### Claim C1 -/

/-- C1 counterexample: the claim says an out-of-range rating signals
ValidationError and leaves the prior rating unchanged, but the source's
User.rate_movie (lines 31-33) performs no validation: rating 999 on a movie
previously rated 5 simply overwrites the rating. -/
theorem rate_movie_out_of_range_changes_rating :
    ¬((999 : Int) ≤ 10) ∧
    User.rate_movie ⟨"alice", [("Dune", ⟨"Dune", some 5, none⟩)], []⟩ "Dune" 999
      = ⟨"alice", [("Dune", ⟨"Dune", some 999, none⟩)], []⟩ := by
  constructor
  · decide
  · decide

/-- C1 amended: User.rate_movie performs no range validation and raises no
error: if the title is a key of the user's movie dict it unconditionally
overwrites that movie's rating with the given value (even out of range,
discarding the prior rating); if the title is absent it is a no-op.  The
[1,10] range check exists only in the excluded interactive layer
(MovieApp.rate_movies, lines 185-192), which applies a parsed rating only
when 1 ≤ r ≤ 10 and otherwise leaves the user unchanged. -/
theorem rate_movie_no_validation (u : User) (t : String) (r : Int) :
    (∀ m, lookupMovie u.movies t = some m →
        lookupMovie (u.rate_movie t r).movies t = some { m with rating := some r }) ∧
    (lookupMovie u.movies t = none → u.rate_movie t r = u) ∧
    (¬(1 ≤ r ∧ r ≤ 10) → MovieApp.rate_step u t r = u) := by
  refine ⟨?_, ?_, ?_⟩
  · intro m hm
    have hc : containsTitle u.movies t = true := by
      rw [containsTitle_eq_isSome, hm]
      rfl
    simp only [User.rate_movie, hc, if_true]
    have := lookupMovie_map_update u.movies t (fun mv => { mv with rating := some r })
    rw [this, hm]
    rfl
  · intro hm
    have hc : containsTitle u.movies t = false := by
      rw [containsTitle_eq_isSome, hm]
      rfl
    simp [User.rate_movie, hc]
  · intro h
    simp [MovieApp.rate_step, h]

/-- C1 witness: rate_movie overwrites a present title's rating with the new
value, and the interactive-layer guard drops an out-of-range value. -/
theorem rate_movie_no_validation_witness :
    lookupMovie (User.rate_movie ⟨"alice", [("Dune", ⟨"Dune", some 5, none⟩)], []⟩ "Dune" 7).movies "Dune"
      = some ⟨"Dune", some 7, none⟩ ∧
    MovieApp.rate_step ⟨"alice", [("Dune", ⟨"Dune", some 5, none⟩)], []⟩ "Dune" 99
      = ⟨"alice", [("Dune", ⟨"Dune", some 5, none⟩)], []⟩ := by
  constructor
  · exact (rate_movie_no_validation ⟨"alice", [("Dune", ⟨"Dune", some 5, none⟩)], []⟩ "Dune" 7).1
      ⟨"Dune", some 5, none⟩ (by decide)
  · exact (rate_movie_no_validation ⟨"alice", [("Dune", ⟨"Dune", some 5, none⟩)], []⟩ "Dune" 99).2.2
      (by decide)

/-! ### Claim C3 -/

/-- Well-formedness of a user's movie dict as the source constructs it:
every movie is stored at its own title as key. -/
def wfUser (u : User) : Bool :=
  u.movies.all (fun q => q.2.title == q.1)

/-- Well-formedness of a population as the source constructs it: every user
is stored at its own username as key, with a well-formed movie dict. -/
def wfPopulation (P : Population) : Bool :=
  P.all (fun p => p.2.username == p.1 && wfUser p.2)

theorem movie_to_from_dict (t : String) (m : Movie) (h : m.title = t) :
    Movie.from_dict t (Movie.to_dict m) = m := by
  obtain ⟨mt, mr, mg⟩ := m
  subst h
  rfl

theorem user_to_from_dict (u : User) (h : wfUser u = true) :
    User.from_dict u.username (User.to_dict u) = u := by
  obtain ⟨name, movies, prefs⟩ := u
  simp only [User.from_dict, User.to_dict, User.mk.injEq, true_and, and_true]
  rw [List.map_map]
  simp only [wfUser, List.all_eq_true, beq_iff_eq] at h
  induction movies with
  | nil => rfl
  | cons q ms ih =>
    have hq : q.2.title = q.1 := h q (List.mem_cons_self _ _)
    have hms : ∀ x ∈ ms, x.2.title = x.1 := fun x hx => h x (List.mem_cons_of_mem _ hx)
    simp only [List.map_cons]
    rw [ih hms]
    have : Movie.from_dict q.1 (Movie.to_dict q.2) = q.2 := movie_to_from_dict q.1 q.2 hq
    simp only [Function.comp_apply, this]

/-- C3: loading after saving reproduces the population exactly, for any
population the source can construct (each user keyed by its username, each
movie keyed by its title): usernames, preference lists (in order), movie
keys and every movie's title, rating and genre are all restored. -/
theorem storage_round_trip (P : Population) (h : wfPopulation P = true) :
    Storage.load (some (Storage.save P)) = P := by
  simp only [Storage.load, Storage.save, List.map_map]
  simp only [wfPopulation, List.all_eq_true, Bool.and_eq_true, beq_iff_eq] at h
  induction P with
  | nil => rfl
  | cons p P ih =>
    have hp := h p (List.mem_cons_self _ _)
    have hP : ∀ x ∈ P, x.2.username = x.1 ∧ wfUser x.2 = true :=
      fun x hx => h x (List.mem_cons_of_mem _ hx)
    simp only [List.map_cons]
    rw [ih hP]
    have hu : User.from_dict p.2.username (User.to_dict p.2) = p.2 :=
      user_to_from_dict p.2 hp.2
    have step : (p.2.username, User.from_dict p.2.username (User.to_dict p.2)) = p := by
      rw [hu, hp.1]
    simp only [Function.comp_apply, step]

/-- C3 witness: a concrete two-user population round-trips unchanged. -/
theorem storage_round_trip_witness :
    wfPopulation
        [("alice", ⟨"alice", [("Dune", ⟨"Dune", some 9, some "scifi"⟩)], ["scifi"]⟩),
         ("bob", ⟨"bob", [("Her", ⟨"Her", none, none⟩)], []⟩)] = true ∧
    Storage.load (some (Storage.save
        [("alice", ⟨"alice", [("Dune", ⟨"Dune", some 9, some "scifi"⟩)], ["scifi"]⟩),
         ("bob", ⟨"bob", [("Her", ⟨"Her", none, none⟩)], []⟩)]))
      = [("alice", ⟨"alice", [("Dune", ⟨"Dune", some 9, some "scifi"⟩)], ["scifi"]⟩),
         ("bob", ⟨"bob", [("Her", ⟨"Her", none, none⟩)], []⟩)] :=
  ⟨by decide,
   storage_round_trip
     [("alice", ⟨"alice", [("Dune", ⟨"Dune", some 9, some "scifi"⟩)], ["scifi"]⟩),
      ("bob", ⟨"bob", [("Her", ⟨"Her", none, none⟩)], []⟩)] (by decide)⟩

/-! ### Claim C7 -/

/-- The ratings of the user's movies that hold a non-None rating, in dict
insertion order: the reference value for the arithmetic-mean claim. -/
def ratedRatings (u : User) : List Int :=
  (u.movies.map Prod.snd).filterMap Movie.rating

theorem map_ratingKey_filter (ms : List Movie) :
    (ms.filter (fun m => m.rating.isSome)).map ratingKey = ms.filterMap Movie.rating := by
  induction ms with
  | nil => rfl
  | cons m ms ih =>
    cases hr : m.rating with
    | none => simpa [List.filter_cons, List.filterMap_cons, hr] using ih
    | some r => simpa [List.filter_cons, List.filterMap_cons, hr, ratingKey] using ih

/-- C7: the stats computation produces no average exactly when the user has
no movie with a non-None rating, and otherwise its average is the exact
arithmetic mean of precisely those ratings. -/
theorem average_rating_mean (u : User) :
    (averageRating u = none ↔ ratedRatings u = []) ∧
    (ratedRatings u ≠ [] →
      averageRating u
        = some ((((ratedRatings u).sum : Int) : Rat) / ((ratedRatings u).length : Rat))) := by
  have key : (u.get_rated_movies).map ratingKey = ratedRatings u :=
    map_ratingKey_filter (u.movies.map Prod.snd)
  have hiff : u.get_rated_movies = [] ↔ ratedRatings u = [] := by
    constructor
    · intro h
      rw [← key, h]
      rfl
    · intro h
      have hk := key
      rw [h] at hk
      exact List.map_eq_nil_iff.mp hk
  by_cases he : u.get_rated_movies = []
  · constructor
    · simp [averageRating, he, hiff.mp he]
    · intro hne
      exact absurd (hiff.mp he) hne
  · have hne : u.get_rated_movies.isEmpty = false := by
      cases hg : u.get_rated_movies with
      | nil => exact absurd hg he
      | cons a l => rfl
    constructor
    · constructor
      · intro habs
        simp [averageRating, hne] at habs
      · intro habs
        exact absurd (hiff.mpr habs) he
    · intro _
      have hsum : (u.get_rated_movies.map ratingKey).sum = (ratedRatings u).sum := by
        rw [key]
      have hlen : u.get_rated_movies.length = (ratedRatings u).length := by
        rw [← key, List.length_map]
      simp only [averageRating, hne, Bool.false_eq_true, if_false, hsum, hlen]

/-- C7 witness: a user with ratings 9 and 7 plus an unrated movie has average
exactly 8. -/
theorem average_rating_mean_witness :
    averageRating ⟨"alice", [("Dune", ⟨"Dune", some 9, none⟩), ("Up", ⟨"Up", some 7, none⟩),
        ("X", ⟨"X", none, none⟩)], []⟩ = some 8 := by
  have h := (average_rating_mean ⟨"alice", [("Dune", ⟨"Dune", some 9, none⟩),
      ("Up", ⟨"Up", some 7, none⟩), ("X", ⟨"X", none, none⟩)], []⟩).2 (by decide)
  rw [h]
  have hr : ratedRatings ⟨"alice", [("Dune", ⟨"Dune", some 9, none⟩),
      ("Up", ⟨"Up", some 7, none⟩), ("X", ⟨"X", none, none⟩)], []⟩ = [9, 7] := by decide
  rw [hr]
  norm_num

/-! ### Claim C4 -/

theorem truthy_eq_isSome_of_ratingOk (m : Movie) (h : ratingOk m = true) :
    truthy m.rating = m.rating.isSome := by
  cases hr : m.rating with
  | none => simp [truthy, hr]
  | some r =>
    simp only [ratingOk, hr, decide_eq_true_eq] at h
    have hr0 : r ≠ 0 := by omega
    simp [truthy, hr, hr0]

theorem truthy_ne_none {r : Option Int} (h : truthy r = true) : r ≠ none := by
  cases r with
  | none => exact absurd h (by simp [truthy])
  | some v => exact Option.some_ne_none v

/-- C4: a movie of the best match's dict passes the line-117 candidate filter
exactly under the literal grouping the spec fixes: the title is not a key of
the user's movie dict, or it is a key, the user's stored rating for it is
None, and the candidate's own rating is not None.  (Stated for movies
satisfying the data-model rating invariant; the source tests the candidate
rating for Python truthiness, which agrees with non-None on ratings in
[1, 10].) -/
theorem candidate_filter_literal_grouping (user : User) (t : String) (m : Movie)
    (h : ratingOk m = true) :
    candCond user t m = true ↔
      (containsTitle user.movies t = false ∨
        (containsTitle user.movies t = true ∧
          (lookupMovie user.movies t).bind Movie.rating = none ∧ m.rating ≠ none)) := by
  have ht := truthy_eq_isSome_of_ratingOk m h
  cases hc : containsTitle user.movies t with
  | false => simp [candCond, hc]
  | true =>
    simp only [candCond, hc, Bool.not_true, Bool.false_or, Bool.and_eq_true,
      Option.isNone_iff_eq_none, ht, Option.isSome_iff_ne_none, true_and]
    tauto

/-- C4 witness: a rated movie whose title the user never added passes the
filter via the first disjunct. -/
theorem candidate_filter_literal_grouping_witness :
    candCond ⟨"alice", [("Dune", ⟨"Dune", some 5, none⟩)], []⟩ "Her" ⟨"Her", some 10, none⟩
      = true :=
  (candidate_filter_literal_grouping ⟨"alice", [("Dune", ⟨"Dune", some 5, none⟩)], []⟩
    "Her" ⟨"Her", some 10, none⟩ (by decide)).mpr (Or.inl (by decide))

/-! ### Claim C2 -/

theorem mem_insertByRatingDesc {x m : Movie} {l : List Movie}
    (h : x ∈ insertByRatingDesc m l) : x = m ∨ x ∈ l := by
  induction l with
  | nil =>
    simp only [insertByRatingDesc, List.mem_singleton] at h
    exact Or.inl h
  | cons y ys ih =>
    by_cases hc : ratingKey y ≤ ratingKey m
    · simp only [insertByRatingDesc, if_pos hc] at h
      rcases List.mem_cons.mp h with h1 | h2
      · exact Or.inl h1
      · exact Or.inr h2
    · simp only [insertByRatingDesc, if_neg hc] at h
      rcases List.mem_cons.mp h with h1 | h2
      · exact Or.inr (by simp [h1])
      · rcases ih h2 with ha | hb
        · exact Or.inl ha
        · exact Or.inr (List.mem_cons_of_mem _ hb)

theorem mem_sortByRatingDesc {x : Movie} {l : List Movie}
    (h : x ∈ sortByRatingDesc l) : x ∈ l := by
  induction l with
  | nil => simp [sortByRatingDesc] at h
  | cons m rest ih =>
    simp only [sortByRatingDesc] at h
    rcases mem_insertByRatingDesc h with h1 | h2
    · simp [h1]
    · exact List.mem_cons_of_mem _ (ih h2)

theorem bmLoop_mem (user : User) (l : List User) (best : Option User) (bs : Int)
    (b : User) (h : bmLoop user l best bs = some b) : b ∈ l ∨ best = some b := by
  induction l generalizing best bs with
  | nil => exact Or.inr h
  | cons o rest ih =>
    simp only [bmLoop] at h
    by_cases h1 : (o.username == user.username) = true
    · rw [if_pos h1] at h
      rcases ih _ _ h with hm | hb
      · exact Or.inl (List.mem_cons_of_mem _ hm)
      · exact Or.inr hb
    · rw [if_neg h1] at h
      by_cases h2 : bs < (simScore user o : Int)
      · rw [if_pos h2] at h
        rcases ih _ _ h with hm | hb
        · exact Or.inl (List.mem_cons_of_mem _ hm)
        · have : o = b := Option.some_inj.mp hb
          exact Or.inl (by simp [this])
      · rw [if_neg h2] at h
        rcases ih _ _ h with hm | hb
        · exact Or.inl (List.mem_cons_of_mem _ hm)
        · exact Or.inr hb

/-- C2 counterexample: the claim says every returned movie has a non-null
rating, but on this population the similarity recommender returns the
null-rated movie Her: bob is alice's best match, Her is not among alice's
titles, so the first disjunct of the line-117 filter admits it with rating
None (and with a single candidate the sort performs no comparison, so the
source raises nothing). -/
theorem similarity_returns_null_rated_movie :
    UserSimilarityRecommender.recommend
        ⟨"alice", [("Dune", ⟨"Dune", some 5, none⟩)], []⟩
        [⟨"alice", [("Dune", ⟨"Dune", some 5, none⟩)], []⟩,
         ⟨"bob", [("Dune", ⟨"Dune", some 5, none⟩), ("Her", ⟨"Her", none, none⟩)], []⟩]
      = some [⟨"Her", none, none⟩] ∧ Movie.rating ⟨"Her", none, none⟩ = none := by
  constructor
  · decide
  · rfl

/-- C2 amended: every movie in a list the similarity recommender actually
returns either has a non-None rating or has a title that is not a key of the
user's own movie dict; a movie with a None rating can be returned exactly
when the user never added its title (the counterexample shows one).  Stated
for populations whose movie dicts key each movie by its title, as the source
constructs them. -/
theorem similarity_output_rated_or_foreign (user : User) (users : List User)
    (hwf : ∀ o ∈ users, wfUser o = true) (l : List Movie)
    (h : UserSimilarityRecommender.recommend user users = some l) :
    ∀ m ∈ l, m.rating ≠ none ∨ containsTitle user.movies m.title = false := by
  intro m hm
  unfold UserSimilarityRecommender.recommend at h
  cases hb : bestMatchUser user users with
  | none =>
    rw [hb] at h
    simp only [Option.some_inj] at h
    rw [← h] at hm
    exact absurd hm (List.not_mem_nil m)
  | some best =>
    rw [hb] at h
    dsimp only at h
    by_cases herr : (decide (2 ≤ (UserSimilarityRecommender.candidates user best).length)
        && (UserSimilarityRecommender.candidates user best).any (fun m => m.rating.isNone)) = true
    · rw [if_pos herr] at h
      exact absurd h (by simp)
    · rw [if_neg herr] at h
      simp only [Option.some_inj] at h
      rw [← h] at hm
      have hm1 : m ∈ sortByRatingDesc (UserSimilarityRecommender.candidates user best) :=
        List.take_subset 5 _ hm
      have hm2 : m ∈ UserSimilarityRecommender.candidates user best :=
        mem_sortByRatingDesc hm1
      simp only [UserSimilarityRecommender.candidates, List.mem_map] at hm2
      obtain ⟨p, hpmem, hpm⟩ := hm2
      have hpfilter := List.mem_filter.mp hpmem
      have hbestmem : best ∈ users := by
        rcases bmLoop_mem user users none (-1) best hb with hmem | habs
        · exact hmem
        · exact absurd habs (by simp)
      have hwfb : p.2.title = p.1 := by
        have := hwf best hbestmem
        simp only [wfUser, List.all_eq_true, beq_iff_eq] at this
        exact this p hpfilter.1
      have hcand : candCond user p.1 p.2 = true := hpfilter.2
      unfold candCond at hcand
      rw [Bool.or_eq_true] at hcand
      rcases hcand with hnc | hrt
      · right
        rw [← hpm, hwfb]
        simpa using hnc
      · left
        rw [← hpm]
        rw [Bool.and_eq_true] at hrt
        exact truthy_ne_none hrt.2

/-- C2 witness: the amended property at the counterexample population - the
returned null-rated movie Her has a title alice never added. -/
theorem similarity_output_rated_or_foreign_witness :
    Movie.rating ⟨"Her", none, none⟩ ≠ none ∨
      containsTitle [("Dune", ⟨"Dune", some 5, none⟩)] (Movie.title ⟨"Her", none, none⟩)
        = false :=
  similarity_output_rated_or_foreign
    ⟨"alice", [("Dune", ⟨"Dune", some 5, none⟩)], []⟩
    [⟨"alice", [("Dune", ⟨"Dune", some 5, none⟩)], []⟩,
     ⟨"bob", [("Dune", ⟨"Dune", some 5, none⟩), ("Her", ⟨"Her", none, none⟩)], []⟩]
    (by decide) [⟨"Her", none, none⟩] (by decide) ⟨"Her", none, none⟩ (by decide)

/-! ### Claim C5 -/

/-- The best-match loop restricted to a list already purged of users sharing
the input user's username: the skip branch never fires.  Proof device
connecting the source loop to its declarative description. -/
def bmLoopF (user : User) : List User → Option User → Int → Option User
  | [], best, _ => best
  | o :: rest, best, bs =>
    if bs < (simScore user o : Int) then bmLoopF user rest (some o) (simScore user o)
    else bmLoopF user rest best bs

theorem bmLoop_eq_bmLoopF (user : User) (l : List User) (best : Option User) (bs : Int) :
    bmLoop user l best bs
      = bmLoopF user (l.filter (fun o => o.username != user.username)) best bs := by
  induction l generalizing best bs with
  | nil => rfl
  | cons o rest ih =>
    cases h : (o.username == user.username) with
    | true =>
      simp only [bmLoop, h, if_true, List.filter_cons, bne, Bool.not_true, if_false]
      exact ih best bs
    | false =>
      simp only [bmLoop, h, Bool.false_eq_true, if_false, List.filter_cons, bne,
        Bool.not_false, if_true, bmLoopF]
      by_cases h2 : bs < (simScore user o : Int)
      · rw [if_pos h2, if_pos h2]
        exact ih _ _
      · rw [if_neg h2, if_neg h2]
        exact ih _ _

/-- The highest similarity score occurring in a list of users, 0 for the
empty list. -/
def maxSimScore (user : User) (l : List User) : Nat :=
  l.foldr (fun o acc => max (simScore user o) acc) 0

/-- The first user in the list achieving the highest similarity score: the
spec's description of neighbor selection (strictly highest score wins,
first encountered wins ties). -/
def firstMaxBySimScore (user : User) (l : List User) : Option User :=
  l.find? (fun o => simScore user o == maxSimScore user l)

theorem le_maxSimScore (user : User) {l : List User} {o : User} (h : o ∈ l) :
    simScore user o ≤ maxSimScore user l := by
  induction l with
  | nil => cases h
  | cons x rest ih =>
    have hcons : maxSimScore user (x :: rest) = max (simScore user x) (maxSimScore user rest) := rfl
    rcases List.mem_cons.mp h with h1 | h2
    · rw [h1, hcons]
      exact Nat.le_max_left _ _
    · rw [hcons]
      exact Nat.le_trans (ih h2) (Nat.le_max_right _ _)

theorem maxSimScore_le (user : User) {l : List User} {c : Nat}
    (h : ∀ o ∈ l, simScore user o ≤ c) : maxSimScore user l ≤ c := by
  induction l with
  | nil => exact Nat.zero_le c
  | cons x rest ih =>
    have hcons : maxSimScore user (x :: rest) = max (simScore user x) (maxSimScore user rest) := rfl
    rw [hcons]
    exact Nat.max_le.mpr ⟨h x (List.mem_cons_self _ _),
      ih (fun o ho => h o (List.mem_cons_of_mem _ ho))⟩

theorem bmLoopF_characterization (user : User) (l : List User) :
    ∀ (best : Option User) (bs : Int),
    bmLoopF user l best bs =
      if l.any (fun o => decide (bs < (simScore user o : Int))) then
        l.find? (fun o => simScore user o == maxSimScore user l)
      else best := by
  induction l with
  | nil =>
    intro best bs
    simp [bmLoopF]
  | cons o rest ih =>
    intro best bs
    have hcons : maxSimScore user (o :: rest) = max (simScore user o) (maxSimScore user rest) := rfl
    by_cases h1 : bs < (simScore user o : Int)
    · have hstep : bmLoopF user (o :: rest) best bs
          = bmLoopF user rest (some o) (simScore user o) := by
        simp [bmLoopF, h1]
      rw [hstep, ih]
      have hany : (o :: rest).any (fun x => decide (bs < (simScore user x : Int))) = true := by
        simp only [List.any_cons, Bool.or_eq_true, decide_eq_true_eq]
        exact Or.inl h1
      rw [if_pos hany]
      by_cases h2 : rest.any (fun x => decide ((simScore user o : Int) < (simScore user x : Int))) = true
      · rw [if_pos h2]
        obtain ⟨y, hy, hlt⟩ := List.any_eq_true.mp h2
        have hlt' : simScore user o < simScore user y := by
          have := of_decide_eq_true hlt
          exact_mod_cast this
        have hle : simScore user o ≤ maxSimScore user rest :=
          Nat.le_trans (Nat.le_of_lt hlt') (le_maxSimScore user hy)
        have hmax : maxSimScore user (o :: rest) = maxSimScore user rest := by
          rw [hcons]
          exact Nat.max_eq_right hle
        rw [hmax]
        have hso : (simScore user o == maxSimScore user rest) = false := by
          have hne : simScore user o ≠ maxSimScore user rest := by
            have h3 : simScore user y ≤ maxSimScore user rest := le_maxSimScore user hy
            omega
          simpa using hne
        simp only [List.find?_cons, hso]
      · rw [if_neg h2]
        have hall : ∀ y ∈ rest, simScore user y ≤ simScore user o := by
          intro y hy
          by_contra hcon
          apply h2
          refine List.any_eq_true.mpr ⟨y, hy, ?_⟩
          simp only [decide_eq_true_eq]
          exact_mod_cast Nat.lt_of_not_le (fun hle => hcon (by omega))
        have hmax : maxSimScore user (o :: rest) = simScore user o := by
          rw [hcons]
          exact Nat.max_eq_left (maxSimScore_le user hall)
        rw [hmax]
        have hso : (simScore user o == simScore user o) = true := by simp
        simp only [List.find?_cons, hso]
    · have hstep : bmLoopF user (o :: rest) best bs = bmLoopF user rest best bs := by
        simp [bmLoopF, h1]
      rw [hstep, ih]
      have hheadfalse : decide (bs < (simScore user o : Int)) = false := by
        simpa using h1
      by_cases h2 : rest.any (fun x => decide (bs < (simScore user x : Int))) = true
      · rw [if_pos h2]
        have hany : (o :: rest).any (fun x => decide (bs < (simScore user x : Int))) = true := by
          simp only [List.any_cons, Bool.or_eq_true]
          exact Or.inr h2
        rw [if_pos hany]
        obtain ⟨y, hy, hlt⟩ := List.any_eq_true.mp h2
        have hylt : bs < (simScore user y : Int) := of_decide_eq_true hlt
        have holt : simScore user o < simScore user y := by
          have hob : (simScore user o : Int) ≤ bs := Int.not_lt.mp h1
          omega
        have hle : simScore user o ≤ maxSimScore user rest :=
          Nat.le_trans (Nat.le_of_lt holt) (le_maxSimScore user hy)
        have hmax : maxSimScore user (o :: rest) = maxSimScore user rest := by
          rw [hcons]
          exact Nat.max_eq_right hle
        rw [hmax]
        have hso : (simScore user o == maxSimScore user rest) = false := by
          have h3 : simScore user y ≤ maxSimScore user rest := le_maxSimScore user hy
          have hne : simScore user o ≠ maxSimScore user rest := by omega
          simpa using hne
        simp only [List.find?_cons, hso]
      · rw [if_neg h2]
        have hanyf : (o :: rest).any (fun x => decide (bs < (simScore user x : Int))) = false := by
          simp only [List.any_cons, hheadfalse, Bool.false_or]
          exact Bool.eq_false_iff.mpr h2
        rw [if_neg (by simp [hanyf])]

theorem bmLoopF_from_start (user : User) (l : List User) :
    bmLoopF user l none (-1) = firstMaxBySimScore user l := by
  rw [bmLoopF_characterization]
  cases l with
  | nil => rfl
  | cons x rest =>
    have hany : (x :: rest).any (fun o => decide ((-1 : Int) < (simScore user o : Int))) = true := by
      simp only [List.any_cons, Bool.or_eq_true, decide_eq_true_eq]
      exact Or.inl (by omega)
    rw [if_pos hany]
    rfl

/-- C5: the best match computed by the source loop (lines 93-110) is exactly
the first user, in population iteration order, among those whose username
differs from the input user's, that achieves the highest similarity score -
strictly-highest score wins and the first encountered wins ties. -/
theorem best_match_first_encountered_max (user : User) (users : List User) :
    bestMatchUser user users
      = firstMaxBySimScore user (users.filter (fun o => o.username != user.username)) := by
  rw [bestMatchUser, bmLoop_eq_bmLoopF, bmLoopF_from_start]

/-! ### Claim C6 -/

/-- The claim-side selection predicate for the genre recommender: a non-None
rating and a genre that is a member of the user's preference list. -/
def specGenrePred (u : User) (m : Movie) : Bool :=
  m.rating.isSome && genreIn m.genre u.preferences

theorem pairwise_insertByRatingDesc {m : Movie} {l : List Movie}
    (h : l.Pairwise (fun a b => ratingKey b ≤ ratingKey a)) :
    (insertByRatingDesc m l).Pairwise (fun a b => ratingKey b ≤ ratingKey a) := by
  induction l with
  | nil => simp [insertByRatingDesc]
  | cons x xs ih =>
    rcases List.pairwise_cons.mp h with ⟨hx, hxs⟩
    by_cases hc : ratingKey x ≤ ratingKey m
    · simp only [insertByRatingDesc, if_pos hc]
      refine List.pairwise_cons.mpr ⟨?_, h⟩
      intro b hb
      rcases List.mem_cons.mp hb with h1 | h2
      · rw [h1]
        exact hc
      · exact le_trans (hx b h2) hc
    · simp only [insertByRatingDesc, if_neg hc]
      refine List.pairwise_cons.mpr ⟨?_, ih hxs⟩
      intro b hb
      rcases mem_insertByRatingDesc hb with h1 | h2
      · rw [h1]
        exact le_of_not_le hc
      · exact hx b h2

theorem pairwise_sortByRatingDesc (l : List Movie) :
    (sortByRatingDesc l).Pairwise (fun a b => ratingKey b ≤ ratingKey a) := by
  induction l with
  | nil => simp [sortByRatingDesc]
  | cons m rest ih => exact pairwise_insertByRatingDesc ih

theorem filter_key_insertByRatingDesc (m : Movie) (l : List Movie) (k : Int) :
    (insertByRatingDesc m l).filter (fun x => ratingKey x == k)
      = if (ratingKey m == k) = true then m :: l.filter (fun x => ratingKey x == k)
        else l.filter (fun x => ratingKey x == k) := by
  induction l with
  | nil =>
    by_cases hm : (ratingKey m == k) = true
    · simp [insertByRatingDesc, List.filter_cons, hm]
    · simp [insertByRatingDesc, List.filter_cons, hm]
  | cons x xs ih =>
    by_cases hc : ratingKey x ≤ ratingKey m
    · simp only [insertByRatingDesc, if_pos hc, List.filter_cons]
    · simp only [insertByRatingDesc, if_neg hc, List.filter_cons, ih]
      by_cases hm : (ratingKey m == k) = true
      · by_cases hx : (ratingKey x == k) = true
        · exact absurd (le_of_eq (by rw [beq_iff_eq.mp hx, beq_iff_eq.mp hm])) hc
        · simp [hm, hx]
      · simp [hm]

theorem filter_key_sortByRatingDesc (l : List Movie) (k : Int) :
    (sortByRatingDesc l).filter (fun x => ratingKey x == k)
      = l.filter (fun x => ratingKey x == k) := by
  induction l with
  | nil => rfl
  | cons m rest ih =>
    simp only [sortByRatingDesc, filter_key_insertByRatingDesc, List.filter_cons, ih]

/-- C6: for a user whose ratings satisfy the data-model invariant, the genre
recommender returns exactly the user's own movies with a non-None rating and
a genre in the preference list, stably sorted descending by rating: the
output equals the stable descending sort of the filtered dict values, it is
pairwise descending in rating, and for every rating value the equally-rated
movies appear in exactly their dict insertion order. -/
theorem genre_recommend_spec (u : User) (p : List User)
    (h : ∀ m ∈ u.movies.map Prod.snd, ratingOk m = true) :
    GenreRecommender.recommend u p
        = sortByRatingDesc ((u.movies.map Prod.snd).filter (specGenrePred u)) ∧
      (GenreRecommender.recommend u p).Pairwise (fun a b => ratingKey b ≤ ratingKey a) ∧
      ∀ k : Int, (GenreRecommender.recommend u p).filter (fun m => ratingKey m == k)
        = ((u.movies.map Prod.snd).filter (specGenrePred u)).filter
            (fun m => ratingKey m == k) := by
  have hfilter : (u.movies.map Prod.snd).filter
        (fun m => truthy m.rating && genreIn m.genre u.preferences)
      = (u.movies.map Prod.snd).filter (specGenrePred u) := by
    apply List.filter_congr
    intro m hm
    unfold specGenrePred
    rw [truthy_eq_isSome_of_ratingOk m (h m hm)]
  refine ⟨?_, ?_, ?_⟩
  · unfold GenreRecommender.recommend
    rw [hfilter]
  · exact pairwise_sortByRatingDesc _
  · intro k
    unfold GenreRecommender.recommend
    rw [hfilter, filter_key_sortByRatingDesc]

/-- C6 witness: the spec's scenario, alice with Dune(9, scifi) and
Up(7, drama) and preferences [scifi]: the recommender yields exactly [Dune],
the sorted filtered list. -/
theorem genre_recommend_spec_witness :
    GenreRecommender.recommend
        ⟨"alice", [("Dune", ⟨"Dune", some 9, some "scifi"⟩),
          ("Up", ⟨"Up", some 7, some "drama"⟩)], ["scifi"]⟩ []
      = sortByRatingDesc
          (((⟨"alice", [("Dune", ⟨"Dune", some 9, some "scifi"⟩),
              ("Up", ⟨"Up", some 7, some "drama"⟩)], ["scifi"]⟩ : User).movies.map
            Prod.snd).filter
            (specGenrePred ⟨"alice", [("Dune", ⟨"Dune", some 9, some "scifi"⟩),
              ("Up", ⟨"Up", some 7, some "drama"⟩)], ["scifi"]⟩)) ∧
    GenreRecommender.recommend
        ⟨"alice", [("Dune", ⟨"Dune", some 9, some "scifi"⟩),
          ("Up", ⟨"Up", some 7, some "drama"⟩)], ["scifi"]⟩ []
      = [⟨"Dune", some 9, some "scifi"⟩] :=
  ⟨(genre_recommend_spec ⟨"alice", [("Dune", ⟨"Dune", some 9, some "scifi"⟩),
      ("Up", ⟨"Up", some 7, some "drama"⟩)], ["scifi"]⟩ [] (by decide)).1,
   by decide⟩

end MoviesPy
